import Mathlib

/-!
Verification of the event-booking data-access layer.

This development is a shallow embedding of the validation / normalization
core of the repository:

* `src/database/event.model.ts` — the Event pre-save hook: slug derivation
  from the title, date normalization, time normalization, and the
  agenda/tags non-emptiness guards.
* `src/database/booking.model.ts` — the Booking email validation
  (the `emailRegex` pattern together with the `lowercase`/`trim`/`maxlength`
  schema options) and the pre-save reference-existence check.
* `src/lib/mongoose.ts` — the cached database connection
  (`connectToDatabase` over the `{ conn, promise }` cache) and the
  `MONGODB_URL` startup check.

JavaScript strings are modelled as `List Char` / `String`; the JS `Date`
parser is modelled on the ECMAScript Date Time String Format (the
engine-specific legacy fallback formats are outside the model); the host
time zone, which JS consults for date-time strings without an offset
designator and for `toTimeString`, is an explicit `tz` parameter (minutes
east of UTC).  `toLowerCase` is modelled by `Char.toLower`, which performs
the ASCII case mapping.
-/

namespace EventApp

/-! ## Character classes

The character classes of the JavaScript regular expressions used by the
source: `\s` (JS whitespace, by code point), `\w` (word characters), and
the individual characters `-`, `_`, `@`, `.` that the patterns mention.
-/

/-- The JS regex `\s` class (and the set trimmed by `String.prototype.trim`):
tab, LF, VT, FF, CR, space, NBSP, and the Unicode space separators. -/
def isSpaceChar (c : Char) : Bool :=
  decide (c.toNat = 9 ∨ c.toNat = 10 ∨ c.toNat = 11 ∨ c.toNat = 12 ∨ c.toNat = 13 ∨
    c.toNat = 32 ∨ c.toNat = 160 ∨ c.toNat = 5760 ∨
    (8192 ≤ c.toNat ∧ c.toNat ≤ 8202) ∨ c.toNat = 8232 ∨ c.toNat = 8233 ∨
    c.toNat = 8239 ∨ c.toNat = 8287 ∨ c.toNat = 12288 ∨ c.toNat = 65279)

/-- The JS regex `\w` class: `[A-Za-z0-9_]`. -/
def isWordChar (c : Char) : Bool :=
  decide ((97 ≤ c.toNat ∧ c.toNat ≤ 122) ∨ (65 ≤ c.toNat ∧ c.toNat ≤ 90) ∨
    (48 ≤ c.toNat ∧ c.toNat ≤ 57) ∨ c.toNat = 95)

/-- The hyphen character `-`. -/
def isHyphenChar (c : Char) : Bool :=
  decide (c.toNat = 45)

/-- The class `[\s_-]` of the separator-collapsing replace in the slug
derivation. -/
def isSepChar (c : Char) : Bool :=
  isSpaceChar c || decide (c.toNat = 95) || isHyphenChar c

/-- The class `[^ ... ]` complement of `[^\w\s-]`: the characters KEPT by
the special-character-stripping replace in the slug derivation. -/
def keepChar (c : Char) : Bool :=
  isWordChar c || isSpaceChar c || isHyphenChar c

/-- Characters that can occur in a derived slug: lowercase ASCII letters,
digits, and the hyphen. -/
def isSlugChar (c : Char) : Bool :=
  decide ((97 ≤ c.toNat ∧ c.toNat ≤ 122) ∨ (48 ≤ c.toNat ∧ c.toNat ≤ 57) ∨ c.toNat = 45)

/-! ## Generic list helpers shared by the string pipelines -/

/-- Remove the trailing run of characters satisfying `p` (the `- +$` /
trailing-whitespace half of the source's edge-stripping operations). -/
def dropTrailing (p : Char → Bool) : List Char → List Char
  | [] => []
  | c :: rest =>
    match dropTrailing p rest with
    | [] => if p c then [] else [c]
    | r => c :: r

/-- JS `String.prototype.trim`: remove leading and trailing JS whitespace. -/
def jsTrim (l : List Char) : List Char :=
  dropTrailing isSpaceChar (l.dropWhile isSpaceChar)

/-! ## Slug derivation (Event pre-save hook)

`this.slug = this.title.toLowerCase().trim()
   .replace(/[^\w\s-]/g, '')
   .replace(/[\s_-]+/g, '-')
   .replace(/^-+|-+$/g, '')`
-/

/-- The step `replace(/[\s_-]+/g, '-')`: each maximal run of separator characters
becomes a single hyphen.  The boolean argument records whether the
previous character belonged to a separator run still being consumed. -/
def collapseSeps (prev : Bool) : List Char → List Char
  | [] => []
  | c :: rest =>
    if isSepChar c then
      if prev then collapseSeps true rest
      else '-' :: collapseSeps true rest
    else c :: collapseSeps false rest

/-- The step `replace(/^-+|-+$/g, '')`: strip the leading and the trailing run of
hyphens. -/
def stripEdgeHyphens (l : List Char) : List Char :=
  dropTrailing isHyphenChar (l.dropWhile isHyphenChar)

/-- The slug pipeline of the Event pre-save hook, on character lists. -/
def slugifyChars (l : List Char) : List Char :=
  stripEdgeHyphens (collapseSeps false (List.filter keepChar (jsTrim (l.map Char.toLower))))

/-- The slug pipeline of the Event pre-save hook. -/
def slugify (s : String) : String :=
  String.mk (slugifyChars s.data)

/-- Adjacent-separator freedom: no two consecutive characters are both in
the `[\s_-]` class. -/
def noAdjSep : List Char → Bool
  | [] => true
  | [_] => true
  | a :: b :: rest => !(isSepChar a && isSepChar b) && noAdjSep (b :: rest)

/-! ## Date and time parsing (the `Date` constructor of the host runtime)

The pre-save hook falls back to `new Date(...)` for date and time inputs.
The model implements the ECMAScript Date Time String Format
(`YYYY[-MM[-DD]][THH:mm[:ss[.frac]]][Z|±HH:mm]`, with the day bounded by
the month length and hour 24 admitted only for exactly midnight); the
engine-specific legacy fallback formats are outside the model.  A string
with no offset designator denotes local wall-clock time; the host zone
offset is the explicit `tz` parameter (minutes east of UTC).  Date-only
strings denote UTC. -/

/-- Two decimal digits, returning the value and the remaining characters. -/
def parse2 : List Char → Option (Nat × List Char)
  | c1 :: c2 :: rest =>
    if 48 ≤ c1.toNat ∧ c1.toNat ≤ 57 ∧ 48 ≤ c2.toNat ∧ c2.toNat ≤ 57 then
      some (10 * (c1.toNat - 48) + (c2.toNat - 48), rest)
    else none
  | _ => none

/-- Four decimal digits (the year field). -/
def parse4 (l : List Char) : Option (Nat × List Char) :=
  match parse2 l with
  | some (hi, rest) =>
    match parse2 rest with
    | some (lo, rest2) => some (100 * hi + lo, rest2)
    | none => none
  | none => none

/-- Millisecond value of a fraction-digit run: the first three digits,
right-padded with zeros (`.5` = 500 ms). -/
def msOfFracDigits (ds : List Char) : Nat :=
  let t := (ds.take 3).foldl (fun a c => 10 * a + (c.toNat - 48)) 0
  t * 10 ^ (3 - min 3 ds.length)

/-- A parsed time-of-day: hours, minutes, seconds, milliseconds, and the
offset designator (`none` = local time, `some o` = `o` minutes east). -/
structure JsTimeOfDay where
  hh : Nat
  mm : Nat
  ss : Nat
  ms : Nat
  offsetMinutes : Option Int
deriving DecidableEq, Repr

/-- Optional `:ss[.frac]` component. -/
def parseSecFrac : List Char → Option (Nat × Nat × List Char)
  | ':' :: rest =>
    match parse2 rest with
    | some (ss, '.' :: r2) =>
      let ds := r2.takeWhile (fun c => decide (48 ≤ c.toNat ∧ c.toNat ≤ 57))
      if ds = [] then none
      else some (ss, msOfFracDigits ds, r2.dropWhile (fun c => decide (48 ≤ c.toNat ∧ c.toNat ≤ 57)))
    | some (ss, r2) => some (ss, 0, r2)
    | none => none
  | l => some (0, 0, l)

/-- Optional trailing offset designator: nothing (local), `Z` (UTC), or
`±HH:mm`. -/
def parseOffset : List Char → Option (Option Int)
  | [] => some none
  | ['Z'] => some (some 0)
  | c :: rest =>
    if c.toNat = 43 ∨ c.toNat = 45 then
      match parse2 rest with
      | some (oh, ':' :: r2) =>
        match parse2 r2 with
        | some (om, []) =>
          if oh ≤ 23 ∧ om ≤ 59 then
            some (some (if c.toNat = 43 then (oh * 60 + om : Int) else -(oh * 60 + om : Int)))
          else none
        | _ => none
      | _ => none
    else none

/-- The time portion `HH:mm[:ss[.frac]][offset]` of the Date Time String
Format.  Hour 24 is admitted only for exactly `24:00[:00[.0…]]`. -/
def parseTimePart (l : List Char) : Option JsTimeOfDay :=
  match parse2 l with
  | some (hh, ':' :: r1) =>
    match parse2 r1 with
    | some (mm, r2) =>
      match parseSecFrac r2 with
      | some (ss, ms, r3) =>
        match parseOffset r3 with
        | some off =>
          if hh ≤ 23 ∧ mm ≤ 59 ∧ ss ≤ 59 then some ⟨hh, mm, ss, ms, off⟩
          else if hh = 24 ∧ mm = 0 ∧ ss = 0 ∧ ms = 0 then some ⟨24, 0, 0, 0, off⟩
          else none
        | none => none
      | none => none
    | none => none
  | _ => none

/-! ### Civil calendar arithmetic (days since the Unix epoch) -/

/-- Gregorian leap year. -/
def isLeapYear (y : Nat) : Bool :=
  decide ((y % 4 = 0 ∧ y % 100 ≠ 0) ∨ y % 400 = 0)

/-- Length of month `m` (1–12) of year `y`. -/
def daysInMonth (y : Nat) (m : Nat) : Nat :=
  if m = 2 then (if isLeapYear y then 29 else 28)
  else if m = 4 ∨ m = 6 ∨ m = 9 ∨ m = 11 then 30
  else 31

/-- Days from the Unix epoch (1970-01-01) to the civil date `y-m-d`
(Howard Hinnant's `days_from_civil`, with floor division). -/
def daysFromCivil (y : Int) (m d : Nat) : Int :=
  let y' : Int := if m ≤ 2 then y - 1 else y
  let era : Int := y'.fdiv 400
  let yoe : Int := y' - era * 400
  let mp : Int := if m ≤ 2 then (m : Int) + 9 else (m : Int) - 3
  let doy : Int := (153 * mp + 2).fdiv 5 + (d : Int) - 1
  let doe : Int := yoe * 365 + yoe.fdiv 4 - yoe.fdiv 100 + doy
  era * 146097 + doe - 719468

/-- Civil date `(y, m, d)` of a day count since the Unix epoch
(Howard Hinnant's `civil_from_days`). -/
def civilFromDays (z : Int) : Int × Nat × Nat :=
  let z' := z + 719468
  let era := z'.fdiv 146097
  let doe := z' - era * 146097
  let yoe := (doe - doe.fdiv 1460 + doe.fdiv 36524 - doe.fdiv 146096).fdiv 365
  let y := yoe + era * 400
  let doy := doe - (365 * yoe + yoe.fdiv 4 - yoe.fdiv 100)
  let mp := (5 * doy + 2).fdiv 153
  let d := doy - (153 * mp + 2).fdiv 5 + 1
  let m := if mp < 10 then mp + 3 else mp - 9
  (if m ≤ 2 then y + 1 else y, m.toNat, d.toNat)

/-- Epoch milliseconds of a parsed wall-clock date-time under the given
offset (`none`: local time at host offset `tz`). -/
def epochMs (tz : Int) (y : Nat) (m d hh mm ss ms : Nat) (off : Option Int) : Int :=
  let wall : Int := daysFromCivil (y : Int) m d * 86400000 +
    ((hh * 3600000 + mm * 60000 + ss * 1000 + ms : Nat) : Int)
  match off with
  | some o => wall - o * 60000
  | none => wall - tz * 60000

/-- Optional `-MM[-DD]` after the year; omitted components default to 1. -/
def parseMonthDay : List Char → Option (Nat × Nat × List Char)
  | '-' :: r1 =>
    match parse2 r1 with
    | some (m, '-' :: r2) =>
      match parse2 r2 with
      | some (d, r3) => some (m, d, r3)
      | none => none
    | some (m, r2) => some (m, 1, r2)
    | none => none
  | l => some (1, 1, l)

/-- The constructor `new Date(string)` on the Date Time String Format: returns the epoch
milliseconds, or `none` for an unparseable string (an Invalid Date).
Date-only forms are UTC; date-time forms without an offset designator are
local time at host offset `tz`. -/
def jsDateParse (tz : Int) (l : List Char) : Option Int :=
  match parse4 l with
  | none => none
  | some (y, rest) =>
    match parseMonthDay rest with
    | none => none
    | some (m, d, rest2) =>
      if 1 ≤ m ∧ m ≤ 12 ∧ 1 ≤ d ∧ d ≤ daysInMonth y m then
        match rest2 with
        | [] => some (epochMs tz y m d 0 0 0 0 (some 0))
        | 'T' :: tl =>
          match parseTimePart tl with
          | some t => some (epochMs tz y m d t.hh t.mm t.ss t.ms t.offsetMinutes)
          | none => none
        | _ => none
      else none

/-- Decimal digits of `n`, zero-padded on the left to width `w`. -/
def padNat (w n : Nat) : String :=
  let s := toString n
  String.mk (List.replicate (w - s.length) '0') ++ s

/-- The date portion of `Date.prototype.toISOString`: the `YYYY-MM-DD`
rendering of the UTC calendar day containing the instant. -/
def toIsoDateString (ts : Int) : String :=
  match civilFromDays (ts.fdiv 86400000) with
  | (y, m, d) => padNat 4 y.toNat ++ "-" ++ padNat 2 m ++ "-" ++ padNat 2 d

/-- Date normalization of the Event pre-save hook:
`new Date(this.date)`; Invalid Date fails the save, otherwise the stored
value is `toISOString().split('T')[0]`. -/
def normalizeDate (tz : Int) (date : String) : Except String String :=
  match jsDateParse tz date.data with
  | none => .error "Date must be in a valid format (YYYY-MM-DD or ISO string)"
  | some ts => .ok (toIsoDateString ts)

/-! ## Time normalization (Event pre-save hook) -/

/-- The strict pattern `/^([01]?[0-9]|2[0-3]):([0-5][0-9])$/` of the time
normalization step. -/
def timeRegexTest (s : String) : Bool :=
  match s.data with
  | [h, ':', m1, m2] =>
    decide ((48 ≤ h.toNat ∧ h.toNat ≤ 57) ∧
      (48 ≤ m1.toNat ∧ m1.toNat ≤ 53) ∧ (48 ≤ m2.toNat ∧ m2.toNat ≤ 57))
  | [h1, h2, ':', m1, m2] =>
    decide (((h1.toNat = 48 ∨ h1.toNat = 49) ∧ (48 ≤ h2.toNat ∧ h2.toNat ≤ 57) ∨
        (h1.toNat = 50 ∧ 48 ≤ h2.toNat ∧ h2.toNat ≤ 51)) ∧
      (48 ≤ m1.toNat ∧ m1.toNat ≤ 53) ∧ (48 ≤ m2.toNat ∧ m2.toNat ≤ 57))
  | _ => false

/-- Local wall-clock minutes-of-day shown by `toTimeString` for
`new Date("2000-01-01T" + time)`. -/
def jsTimeLocalMinutes (tz : Int) (t : JsTimeOfDay) : Nat :=
  match t.offsetMinutes with
  | none => (t.hh * 60 + t.mm) % 1440
  | some off => (((t.hh * 60 + t.mm : Nat) : Int) - off + tz).emod 1440 |>.toNat

/-- The `HH:MM` rendering (`toTimeString().slice(0, 5)`). -/
def formatHM (minutes : Nat) : String :=
  padNat 2 (minutes / 60) ++ ":" ++ padNat 2 (minutes % 60)

/-- Time normalization of the Event pre-save hook: a string matching the
strict pattern is kept as-is; otherwise it is parsed as
`new Date("2000-01-01T" + time)` and reformatted from `toTimeString`;
if that is an Invalid Date the save fails. -/
def normalizeTime (tz : Int) (time : String) : Except String String :=
  if timeRegexTest time then .ok time
  else
    match parseTimePart time.data with
    | none => .error "Time must be in HH:MM format"
    | some t => .ok (formatHM (jsTimeLocalMinutes tz t))

/-! ## Booking email validation

`const emailRegex = /^[^\s@]+@[^\s@]+\.[^\s@]+$/;` together with the
schema options `lowercase: true`, `trim: true`, the custom validator with
message "Please provide a valid email address", and
`maxlength: [254, 'Email cannot exceed 254 characters']`,
`required: [true, 'Email is required']`. -/

/-- The `[^\s@]` class of `emailRegex`. -/
def emailCharOk (c : Char) : Bool :=
  !isSpaceChar c && !(decide (c.toNat = 64))

/-- Backtracking matcher for `p+` followed by a continuation: some
non-empty run of characters satisfying `p` is consumed, after which the
continuation accepts the remaining characters. -/
def matchPlus (p : Char → Bool) (k : List Char → Bool) : List Char → Bool
  | [] => false
  | c :: rest => p c && (k rest || matchPlus p k rest)

/-- The test `emailRegex.test`: the anchored pattern `[^\\s@]+ @ [^\\s@]+ \\. [^\\s@]+`
(`@` has code point 64 and `.` code point 46). -/
def emailRegexTest (l : List Char) : Bool :=
  matchPlus emailCharOk (fun r1 =>
    match r1 with
    | c1 :: r2 =>
      decide (c1.toNat = 64) && matchPlus emailCharOk (fun r3 =>
        match r3 with
        | c2 :: r4 => decide (c2.toNat = 46) && matchPlus emailCharOk List.isEmpty r4
        | [] => false) r2
    | [] => false) l

/-- The `lowercase` and `trim` setters applied by the schema before
validation. -/
def normalizeEmailInput (s : String) : String :=
  String.mk (jsTrim (s.data.map Char.toLower))

/-- Booking email validation: the setters run first, then the `required`
check, the `emailRegex` validator, and the 254-character bound, in the
order the schema declares them; the first failure reports its
field-specific message and the Booking is not persisted. -/
def validateBookingEmail (s : String) : Except String String :=
  let v := normalizeEmailInput s
  if v = "" then .error "Email is required"
  else if !emailRegexTest v.data then .error "Please provide a valid email address"
  else if 254 < v.length then .error "Email cannot exceed 254 characters"
  else .ok v

/-- The claim's concrete characterization of acceptance: non-empty, at
most 254 characters, no whitespace, exactly one `@`, and non-empty
segments on either side of the `@` (stated from the claim's words, for
comparison against the code's `emailRegex`). -/
def claimedEmailAccept (v : String) : Bool :=
  !v.isEmpty && decide (v.length ≤ 254) &&
    v.data.all (fun c => !isSpaceChar c) &&
    decide (v.data.count '@' = 1) &&
    !(decide (v.data.head? = some '@')) && !(decide (v.data.getLast? = some '@'))

/-! ## The Event pre-save hook as a whole

`EventSchema.pre('save', ...)`: each normalization step runs only when its
source field `isNew || isModified`; then the agenda/tags guards run. -/

/-- The fields of an Event document that the pre-save hook reads or
writes. -/
structure EventDoc where
  title : String
  slug : String
  date : String
  time : String
  agenda : List String
  tags : List String
deriving DecidableEq, Repr

/-- The `this.isNew` and `this.isModified(field)` dirty flags at the time
the hook runs. -/
structure SaveFlags where
  isNew : Bool
  titleModified : Bool
  dateModified : Bool
  timeModified : Bool
deriving DecidableEq, Repr

/-- Slug derivation step: runs only when the title is new or modified. -/
def eventSlugStep (f : SaveFlags) (d : EventDoc) : EventDoc :=
  if f.isNew || f.titleModified then { d with slug := slugify d.title } else d

/-- Date normalization step: runs only when the date is new or modified. -/
def eventDateStep (tz : Int) (f : SaveFlags) (d : EventDoc) : Except String EventDoc :=
  if f.isNew || f.dateModified then
    match normalizeDate tz d.date with
    | .error e => .error e
    | .ok dv => .ok { d with date := dv }
  else .ok d

/-- Time normalization step: runs only when the time is new or modified. -/
def eventTimeStep (tz : Int) (f : SaveFlags) (d : EventDoc) : Except String EventDoc :=
  if f.isNew || f.timeModified then
    match normalizeTime tz d.time with
    | .error e => .error e
    | .ok tv => .ok { d with time := tv }
  else .ok d

/-- The agenda/tags non-emptiness guards at the end of the hook. -/
def eventGuards (d : EventDoc) : Except String EventDoc :=
  if d.agenda.length = 0 then .error "Agenda cannot be empty"
  else if d.tags.length = 0 then .error "Tags cannot be empty"
  else .ok d

/-- The Event pre-save hook: conditional slug derivation, conditional date
normalization, conditional time normalization, then the agenda/tags
guards; the first failure aborts the save with its error. -/
def eventPreSave (tz : Int) (d0 : EventDoc) (f : SaveFlags) : Except String EventDoc :=
  (eventDateStep tz f (eventSlugStep f d0)).bind fun d1 =>
    (eventTimeStep tz f d1).bind eventGuards

/-! ## Booking pre-save reference check

`BookingSchema.pre('save', ...)`: when `eventId` is new or modified, one
`Event.exists({ _id: this.eventId })` lookup runs inside a try/catch; an
absent Event fails the save naming the identity, a thrown lookup error is
wrapped (preserving the message of a structured `Error`), and an unchanged
`eventId` skips the lookup entirely. -/

/-- Outcome of the `Event.exists` lookup (or of the dynamic import that
precedes it): the referenced Event was found, was absent, or the lookup
itself threw — a structured `Error` carrying a message, or some other
thrown value. -/
inductive LookupOutcome where
  | found
  | absent
  | threw (isStructuredError : Bool) (msg : String)
deriving DecidableEq, Repr

/-- The reference-validation part of the Booking pre-save hook: `none`
means the hook calls `next()` with no error; `some e` means the save is
aborted with message `e`. -/
def bookingValidateRef (isNewOrModified : Bool) (eventId : String)
    (lookup : LookupOutcome) : Option String :=
  if isNewOrModified then
    match lookup with
    | .found => none
    | .absent => some ("Event with ID " ++ eventId ++ " does not exist")
    | .threw true msg => some ("Failed to validate event reference: " ++ msg)
    | .threw false _ => some "Failed to validate event reference"
  else none

/-- Number of reads issued against Event storage by one Booking save. -/
def bookingRefLookupCount (isNewOrModified : Bool) : Nat :=
  if isNewOrModified then 1 else 0

/-! ## Connection cache (`src/lib/mongoose.ts`)

`const cached = global.mongoose || { conn: null, promise: null }` and
`connectToDatabase`: return `cached.conn` when present; otherwise install
a single shared pending attempt in `cached.promise` and await it; on
success store the result in `cached.conn`; on failure clear both so a
later call retries. -/

/-- The module-level `{ conn, promise }` cache.  Handles and attempts are
identified by numeric tokens. -/
structure ConnCache where
  conn : Option Nat
  promise : Option Nat
deriving DecidableEq, Repr

/-- What one `connectToDatabase()` invocation does first, as a function of
the cache: return the existing handle, await the existing pending attempt,
or start a new attempt. -/
inductive CallAction where
  | returnExisting (h : Nat)
  | awaitExisting (p : Nat)
  | startNew
deriving DecidableEq, Repr

/-- The branch structure of `connectToDatabase`: `if (cached.conn) return
cached.conn; if (!cached.promise) { ...start... } await cached.promise`. -/
def connectAction (c : ConnCache) : CallAction :=
  match c.conn with
  | some h => .returnExisting h
  | none =>
    match c.promise with
    | some p => .awaitExisting p
    | none => .startNew

/-- Global state of the connection layer: the cache, the number of
connection attempts currently in flight, and a counter for fresh attempt
identifiers. -/
structure ConnState where
  cache : ConnCache
  inFlight : Nat
  nextId : Nat
deriving DecidableEq, Repr

/-- The events of the connection layer.  `call_hit` and `call_join` are
invocations that touch the cache without starting I/O; `call_start` is an
invocation finding `conn` and `promise` both absent, which installs a new
pending attempt; `attempt_success` resolves the pending attempt and stores
the handle (the promise field is left in place, as in the source);
`attempt_failure` rejects it, and the catch handlers reset both `promise`
and `conn` to null. -/
inductive ConnStep : ConnState → ConnState → Prop where
  | call_hit (s : ConnState) (h : Nat) :
      s.cache.conn = some h → ConnStep s s
  | call_join (s : ConnState) (p : Nat) :
      s.cache.conn = none → s.cache.promise = some p → ConnStep s s
  | call_start (s : ConnState) :
      s.cache.conn = none → s.cache.promise = none →
      ConnStep s ⟨⟨s.cache.conn, some s.nextId⟩, s.inFlight + 1, s.nextId + 1⟩
  | attempt_success (s : ConnState) (p h : Nat) :
      s.cache.promise = some p → 0 < s.inFlight →
      ConnStep s ⟨⟨some h, s.cache.promise⟩, s.inFlight - 1, s.nextId⟩
  | attempt_failure (s : ConnState) (p : Nat) :
      s.cache.promise = some p → 0 < s.inFlight →
      ConnStep s ⟨⟨none, none⟩, s.inFlight - 1, s.nextId⟩

/-- The state of the module after initialization: an empty cache and no
attempt in flight. -/
def connInit : ConnState := ⟨⟨none, none⟩, 0, 0⟩

/-- States reachable from module initialization. -/
def ConnReachable (s : ConnState) : Prop :=
  Relation.ReflTransGen ConnStep connInit s

/-! ## Module initialization (`MONGODB_URL`) -/

/-- Module initialization of `src/lib/mongoose.ts`: reading the
environment, `if (!MONGODB_URL) throw new Error(...)`, then installing the
empty `{ conn: null, promise: null }` cache.  The guard is a JS falsiness
test: it throws both when the variable is unset (`undefined`) and when it
is set to the empty string (the only falsy string).  No connection attempt
is made at initialization. -/
def mongooseModuleInit (envUrl : Option String) : Except String (String × ConnState) :=
  match envUrl with
  | none => .error "Please define the MONGODB_URL environment variable inside .env"
  | some url =>
    if url = "" then .error "Please define the MONGODB_URL environment variable inside .env"
    else .ok (url, connInit)

/-! ## Examples, lemmas, and the claim theorems -/

example : slugify "  Trimmed---Title!!  " = "trimmed-title" := by decide

example : slugify "!!!" = "" := by decide

example : slugify "Event_With_Underscores" = "event-with-underscores" := by decide

example : slugify "Tech Conference 2024" = "tech-conference-2024" := by decide

/-! ## Lemmas about the slug pipeline -/

theorem mem_dropTrailing {p : Char → Bool} {l : List Char} {c : Char}
    (h : c ∈ dropTrailing p l) : c ∈ l := by
  induction l with
  | nil => simp [dropTrailing] at h
  | cons a rest ih =>
    rw [dropTrailing] at h
    rcases hr : dropTrailing p rest with _ | ⟨b, r⟩
    · rw [hr] at h
      by_cases hp : p a
      · simp [hp] at h
      · simp [hp] at h
        simp [h]
    · rw [hr] at h
      rcases List.mem_cons.1 h with h1 | h1
      · simp [h1]
      · refine List.mem_cons_of_mem _ (ih ?_)
        rw [hr]
        exact h1

theorem head?_dropTrailing {p : Char → Bool} {l : List Char} {c : Char}
    (h : (dropTrailing p l).head? = some c) : l.head? = some c := by
  induction l with
  | nil => simp [dropTrailing] at h
  | cons a rest ih =>
    rw [dropTrailing] at h
    rcases hr : dropTrailing p rest with _ | ⟨b, r⟩
    · rw [hr] at h
      by_cases hp : p a
      · simp [hp] at h
      · simp [hp] at h
        simp [h]
    · rw [hr] at h
      simp at h
      simp [h]

theorem getLast?_dropTrailing {p : Char → Bool} {l : List Char} {c : Char}
    (h : c ∈ (dropTrailing p l).getLast?) : p c = false := by
  induction l with
  | nil => simp [dropTrailing] at h
  | cons a rest ih =>
    rw [dropTrailing] at h
    rcases hr : dropTrailing p rest with _ | ⟨b, r⟩
    · rw [hr] at h
      by_cases hp : p a
      · simp [hp] at h
      · simp [hp, Option.mem_def] at h
        subst h
        simpa using hp
    · rw [hr] at h
      rw [List.getLast?_cons_cons] at h
      exact ih (hr ▸ h)

theorem noAdjSep_cons {a : Char} {l : List Char} :
    noAdjSep (a :: l) = true ↔
      ((∀ b, l.head? = some b → (isSepChar a && isSepChar b) = false) ∧ noAdjSep l = true) := by
  cases l with
  | nil => simp [noAdjSep]
  | cons b rest =>
    rw [noAdjSep]
    simp only [Bool.and_eq_true, Bool.not_eq_true', List.head?_cons, Option.some.injEq]
    constructor
    · rintro ⟨h1, h2⟩
      exact ⟨fun b' hb' => hb' ▸ h1, h2⟩
    · rintro ⟨h1, h2⟩
      exact ⟨h1 b rfl, h2⟩

theorem noAdjSep_dropTrailing {p : Char → Bool} {l : List Char}
    (h : noAdjSep l = true) : noAdjSep (dropTrailing p l) = true := by
  induction l with
  | nil => simpa [dropTrailing] using h
  | cons a rest ih =>
    rw [noAdjSep_cons] at h
    rw [dropTrailing]
    rcases hr : dropTrailing p rest with _ | ⟨b, r⟩
    · by_cases hp : p a
      · simp [hp, noAdjSep]
      · simp [hp, noAdjSep]
    · rw [noAdjSep_cons]
      refine ⟨?_, hr ▸ ih h.2⟩
      intro b' hb'
      apply h.1
      exact head?_dropTrailing (hr ▸ hb')

theorem noAdjSep_dropWhile {p : Char → Bool} {l : List Char}
    (h : noAdjSep l = true) : noAdjSep (l.dropWhile p) = true := by
  induction l with
  | nil => simpa using h
  | cons a rest ih =>
    rw [List.dropWhile_cons]
    rw [noAdjSep_cons] at h
    by_cases hp : p a
    · simp only [hp, if_true]
      exact ih h.2
    · simp only [hp, if_false]
      exact noAdjSep_cons.2 h

theorem head?_dropWhile {p : Char → Bool} {l : List Char} {c : Char}
    (h : (l.dropWhile p).head? = some c) : p c = false := by
  induction l with
  | nil => simp at h
  | cons a rest ih =>
    rw [List.dropWhile_cons] at h
    by_cases hp : p a
    · simp only [hp, if_true] at h
      exact ih h
    · simp [hp] at h
      subst h
      simpa using hp

theorem mem_collapseSeps {prev : Bool} {l : List Char} {c : Char}
    (h : c ∈ collapseSeps prev l) :
    c.toNat = 45 ∨ (isSepChar c = false ∧ c ∈ l) := by
  induction l generalizing prev with
  | nil => simp [collapseSeps] at h
  | cons a rest ih =>
    rw [collapseSeps] at h
    by_cases ha : isSepChar a
    · simp only [ha, if_true] at h
      cases prev with
      | true =>
        rcases ih h with h1 | h1
        · exact Or.inl h1
        · exact Or.inr ⟨h1.1, List.mem_cons_of_mem _ h1.2⟩
      | false =>
        rcases List.mem_cons.1 h with h1 | h1
        · left
          rw [h1]
          decide
        · rcases ih h1 with h2 | h2
          · exact Or.inl h2
          · exact Or.inr ⟨h2.1, List.mem_cons_of_mem _ h2.2⟩
    · simp only [ha, if_false] at h
      rcases List.mem_cons.1 h with h1 | h1
      · right
        rw [h1]
        exact ⟨by simpa using ha, List.mem_cons_self _ _⟩
      · rcases ih h1 with h2 | h2
        · exact Or.inl h2
        · exact Or.inr ⟨h2.1, List.mem_cons_of_mem _ h2.2⟩

theorem head?_collapseSeps_true {l : List Char} {c : Char}
    (h : (collapseSeps true l).head? = some c) : isSepChar c = false := by
  induction l with
  | nil => simp [collapseSeps] at h
  | cons a rest ih =>
    rw [collapseSeps] at h
    by_cases ha : isSepChar a
    · simp only [ha, if_true] at h
      exact ih h
    · simp [ha] at h
      subst h
      simpa using ha

theorem noAdjSep_collapseSeps (prev : Bool) (l : List Char) :
    noAdjSep (collapseSeps prev l) = true := by
  induction l generalizing prev with
  | nil => simp [collapseSeps, noAdjSep]
  | cons a rest ih =>
    by_cases ha : isSepChar a
    · cases prev with
      | true =>
        simpa [collapseSeps, ha] using ih true
      | false =>
        have hc : collapseSeps false (a :: rest) = '-' :: collapseSeps true rest := by
          simp [collapseSeps, ha]
        rw [hc, noAdjSep_cons]
        refine ⟨?_, ih true⟩
        intro b hb
        rw [head?_collapseSeps_true hb]
        simp
    · have ha' : isSepChar a = false := by simpa using ha
      have hc : collapseSeps prev (a :: rest) = a :: collapseSeps false rest := by
        simp [collapseSeps, ha']
      rw [hc, noAdjSep_cons]
      refine ⟨?_, ih false⟩
      intro b _
      simp [ha']

theorem toLower_toNat (c : Char) :
    (Char.toLower c).toNat = if 65 ≤ c.toNat ∧ c.toNat ≤ 90 then c.toNat + 32 else c.toNat := by
  unfold Char.toLower
  split
  · next h =>
    rw [if_pos ⟨h.1, h.2⟩, Char.ofNat, dif_pos (Or.inl (by omega : c.toNat + 32 < 55296))]
    rfl
  · next h =>
    rw [if_neg (by simpa [ge_iff_le] using h)]

theorem toLower_not_upper (c : Char) :
    ¬(65 ≤ (Char.toLower c).toNat ∧ (Char.toLower c).toNat ≤ 90) := by
  rw [toLower_toNat]
  split
  · next h => omega
  · next h => omega

theorem slugChar_of_keep_not_sep {c : Char} (hk : keepChar c = true) (hs : isSepChar c = false)
    (hu : ¬(65 ≤ c.toNat ∧ c.toNat ≤ 90)) : isSlugChar c = true := by
  simp only [keepChar, isWordChar, isSpaceChar, isHyphenChar, isSepChar, isSlugChar,
    Bool.or_eq_true, Bool.or_eq_false_iff, decide_eq_true_eq, decide_eq_false_iff_not] at hk hs ⊢
  omega

theorem mem_slugifyChars {l : List Char} {c : Char}
    (h : c ∈ slugifyChars l) : isSlugChar c = true := by
  unfold slugifyChars stripEdgeHyphens at h
  have h1 : c ∈ collapseSeps false (List.filter keepChar (jsTrim (l.map Char.toLower))) :=
    (List.dropWhile_sublist _).subset (mem_dropTrailing h)
  rcases mem_collapseSeps h1 with h2 | ⟨hsep, h2⟩
  · simp [isSlugChar, h2]
  · have h3 : keepChar c = true ∧ c ∈ jsTrim (l.map Char.toLower) := by
      have := List.mem_filter.1 h2
      exact ⟨this.2, this.1⟩
    have h4 : c ∈ l.map Char.toLower := by
      unfold jsTrim at h3
      exact (List.dropWhile_sublist _).subset (mem_dropTrailing h3.2)
    rcases List.mem_map.1 h4 with ⟨c₀, _, rfl⟩
    exact slugChar_of_keep_not_sep h3.1 hsep (toLower_not_upper c₀)

theorem head?_slugifyChars {l : List Char} {c : Char}
    (h : (slugifyChars l).head? = some c) : isHyphenChar c = false := by
  unfold slugifyChars stripEdgeHyphens at h
  exact head?_dropWhile (head?_dropTrailing h)

theorem getLast?_slugifyChars {l : List Char} {c : Char}
    (h : (slugifyChars l).getLast? = some c) : isHyphenChar c = false := by
  unfold slugifyChars stripEdgeHyphens at h
  exact getLast?_dropTrailing (Option.mem_def.2 h)

theorem noAdjSep_slugifyChars (l : List Char) : noAdjSep (slugifyChars l) = true := by
  unfold slugifyChars stripEdgeHyphens
  exact noAdjSep_dropTrailing (noAdjSep_dropWhile (noAdjSep_collapseSeps false _))

theorem ne_hyphen_of_not_hyphenChar {c : Char} (h : isHyphenChar c = false) : c ≠ '-' := by
  intro hc
  subst hc
  simp [isHyphenChar] at h

/-- C2: for every title, the derived slug contains only lowercase word
characters (ASCII lowercase letters and digits) and hyphens, never starts
or ends with a hyphen, and contains no run of two adjacent separators;
`"  Trimmed---Title!!  "` maps to `"trimmed-title"`, and a title whose
slug comes out empty (here `"!!!"`) yields the empty string as a legal
value rather than an error. -/
theorem slug_wellformed (s : String) :
    (∀ c ∈ (slugify s).data, isSlugChar c = true) ∧
    (∀ c, (slugify s).data.head? = some c → c ≠ '-') ∧
    (∀ c, (slugify s).data.getLast? = some c → c ≠ '-') ∧
    noAdjSep (slugify s).data = true ∧
    slugify "  Trimmed---Title!!  " = "trimmed-title" ∧
    slugify "!!!" = "" := by
  refine ⟨?_, ?_, ?_, ?_, by decide, by decide⟩
  · intro c hc
    exact mem_slugifyChars hc
  · intro c hc
    exact ne_hyphen_of_not_hyphenChar (head?_slugifyChars hc)
  · intro c hc
    exact ne_hyphen_of_not_hyphenChar (getLast?_slugifyChars hc)
  · exact noAdjSep_slugifyChars _

/-- Witness for C2 at the concrete title `"My Amazing Event"`. -/
theorem slug_wellformed_witness :
    noAdjSep (slugify "My Amazing Event").data = true ∧
    slugify "  Trimmed---Title!!  " = "trimmed-title" :=
  ⟨(slug_wellformed "My Amazing Event").2.2.2.1, (slug_wellformed "My Amazing Event").2.2.2.2.1⟩

theorem char_eq_of_toNat_eq {c d : Char} (h : c.toNat = d.toNat) : c = d :=
  Char.ext (UInt32.ext h)

theorem toLower_eq_self {c : Char} (h : ¬(65 ≤ c.toNat ∧ c.toNat ≤ 90)) :
    Char.toLower c = c := by
  unfold Char.toLower
  rw [if_neg (by simpa [ge_iff_le] using h)]

theorem map_toLower_of_slug {l : List Char} (h : ∀ c ∈ l, isSlugChar c = true) :
    l.map Char.toLower = l := by
  induction l with
  | nil => rfl
  | cons a rest ih =>
    have ha := h a (List.mem_cons_self _ _)
    simp only [isSlugChar, decide_eq_true_eq] at ha
    rw [List.map_cons, toLower_eq_self (by omega), ih (fun c hc => h c (List.mem_cons_of_mem _ hc))]

theorem dropWhile_eq_self_of_all_false {p : Char → Bool} {l : List Char}
    (h : ∀ c ∈ l, p c = false) : l.dropWhile p = l := by
  cases l with
  | nil => rfl
  | cons a rest =>
    rw [List.dropWhile_cons, if_neg (by simp [h a (List.mem_cons_self _ _)])]

theorem dropTrailing_eq_self_of_all_false {p : Char → Bool} {l : List Char}
    (h : ∀ c ∈ l, p c = false) : dropTrailing p l = l := by
  induction l with
  | nil => rfl
  | cons a rest ih =>
    rw [dropTrailing, ih (fun c hc => h c (List.mem_cons_of_mem _ hc))]
    cases rest with
    | nil => rw [if_neg (by simp [h a (List.mem_cons_self _ _)])]
    | cons b r => rfl

theorem dropTrailing_eq_self_of_getLast? {p : Char → Bool} {l : List Char}
    (h : ∀ c, l.getLast? = some c → p c = false) : dropTrailing p l = l := by
  induction l with
  | nil => rfl
  | cons a rest ih =>
    cases rest with
    | nil =>
      rw [dropTrailing]
      simp only [dropTrailing]
      rw [if_neg (by simp [h a rfl])]
    | cons b r =>
      rw [dropTrailing, ih (fun c hc => h c (by rw [List.getLast?_cons_cons]; exact hc))]

theorem collapseSeps_eq_self {l : List Char}
    (h45 : ∀ c ∈ l, isSepChar c = true → c.toNat = 45) (hadj : noAdjSep l = true) :
    collapseSeps false l = l ∧
      ((∀ b, l.head? = some b → isSepChar b = false) → collapseSeps true l = l) := by
  induction l with
  | nil => exact ⟨rfl, fun _ => rfl⟩
  | cons a rest ih =>
    rw [noAdjSep_cons] at hadj
    have ih' := ih (fun c hc => h45 c (List.mem_cons_of_mem _ hc)) hadj.2
    constructor
    · by_cases hs : isSepChar a
      · have ha : a = '-' := char_eq_of_toNat_eq (h45 a (List.mem_cons_self _ _) hs)
        have hc : collapseSeps false (a :: rest) = '-' :: collapseSeps true rest := by
          simp [collapseSeps, hs]
        rw [hc, ih'.2 ?_, ha]
        intro b hb
        have := hadj.1 b hb
        rwa [hs, Bool.true_and] at this
      · have hs' : isSepChar a = false := by simpa using hs
        have hc : collapseSeps false (a :: rest) = a :: collapseSeps false rest := by
          simp [collapseSeps, hs']
        rw [hc, ih'.1]
    · intro hhead
      have hs' : isSepChar a = false := hhead a rfl
      have hc : collapseSeps true (a :: rest) = a :: collapseSeps false rest := by
        simp [collapseSeps, hs']
      rw [hc, ih'.1]

theorem slugifyChars_fixed {r : List Char}
    (hslug : ∀ c ∈ r, isSlugChar c = true)
    (hhead : ∀ c, r.head? = some c → isHyphenChar c = false)
    (hlast : ∀ c, r.getLast? = some c → isHyphenChar c = false)
    (hadj : noAdjSep r = true) : slugifyChars r = r := by
  unfold slugifyChars
  have h1 : r.map Char.toLower = r := map_toLower_of_slug hslug
  have h2 : jsTrim r = r := by
    unfold jsTrim
    have hns : ∀ c ∈ r, isSpaceChar c = false := by
      intro c hc
      have := hslug c hc
      simp only [isSlugChar, decide_eq_true_eq] at this
      simp only [isSpaceChar, decide_eq_false_iff_not]
      omega
    rw [dropWhile_eq_self_of_all_false hns, dropTrailing_eq_self_of_all_false hns]
  have h3 : List.filter keepChar r = r := by
    refine List.filter_eq_self.mpr ?_
    intro c hc
    have := hslug c hc
    simp only [isSlugChar, decide_eq_true_eq] at this
    simp only [keepChar, isWordChar, isSpaceChar, isHyphenChar, Bool.or_eq_true,
      decide_eq_true_eq]
    omega
  have h4 : collapseSeps false r = r := by
    refine (collapseSeps_eq_self ?_ hadj).1
    intro c hc hsep
    have := hslug c hc
    simp only [isSlugChar, decide_eq_true_eq] at this
    simp only [isSepChar, isSpaceChar, isHyphenChar, Bool.or_eq_true, decide_eq_true_eq] at hsep
    omega
  have h5 : stripEdgeHyphens r = r := by
    unfold stripEdgeHyphens
    have hd : r.dropWhile isHyphenChar = r := by
      cases hr : r with
      | nil => rfl
      | cons a rest =>
        rw [List.dropWhile_cons, if_neg ?_]
        have := hhead a (by rw [hr]; rfl)
        simp [this]
    rw [hd]
    exact dropTrailing_eq_self_of_getLast? hlast
  rw [h1, h2, h3, h4, h5]

/-- C9: the slug derivation is idempotent as a pure string function:
applying the pipeline to its own output returns the output unchanged. -/
theorem slugify_idempotent (s : String) : slugify (slugify s) = slugify s := by
  show String.mk (slugifyChars (slugifyChars s.data)) = String.mk (slugifyChars s.data)
  rw [slugifyChars_fixed (fun c hc => mem_slugifyChars hc)
    (fun c hc => head?_slugifyChars hc)
    (fun c hc => getLast?_slugifyChars hc)
    (noAdjSep_slugifyChars _)]

/-- Witness for C9 at the concrete title `"  Trimmed---Title!!  "`. -/
theorem slugify_idempotent_witness :
    slugify (slugify "  Trimmed---Title!!  ") = slugify "  Trimmed---Title!!  " :=
  slugify_idempotent "  Trimmed---Title!!  "

example : normalizeTime 0 "9:30" = .ok "9:30" := rfl

example : normalizeTime 0 "14:30" = .ok "14:30" := rfl

example : normalizeTime 0 "25:00" = .error "Time must be in HH:MM format" := rfl

example : normalizeTime 0 "invalid" = .error "Time must be in HH:MM format" := rfl

example : normalizeTime 0 "24:00" = .ok "00:00" := rfl

example : normalizeTime 0 "09:30:45" = .ok "09:30" := rfl

example : normalizeDate 0 "2024-12-15" = .ok "2024-12-15" := rfl

example : normalizeDate 0 "2024-12-15T10:30:00.000Z" = .ok "2024-12-15" := rfl

example : normalizeDate 0 "2024-02-29" = .ok "2024-02-29" := rfl

example : normalizeDate 0 "2023-02-29" =
    .error "Date must be in a valid format (YYYY-MM-DD or ISO string)" := rfl

example : normalizeDate 0 "invalid-date" =
    .error "Date must be in a valid format (YYYY-MM-DD or ISO string)" := rfl

example : normalizeDate (-300) "2024-12-15T23:30:00" = .ok "2024-12-16" := rfl

/-- C1 (divergence witness): the time input `"9:30"` matches the strict
pattern (which admits single-digit hours), so the code stores it unchanged
as `"9:30"` — not zero-padded to `"09:30"` as the claim (and the
repository's own test for single-digit hours) states; `"25:00"` fails both
the pattern and the generic parse and is rejected with
"Time must be in HH:MM format". -/
theorem time_strict_unchanged :
    timeRegexTest "9:30" = true ∧
    (∀ tz : Int, normalizeTime tz "9:30" = .ok "9:30") ∧
    (Except.ok "9:30" : Except String String) ≠ .ok "09:30" ∧
    normalizeTime 0 "25:00" = .error "Time must be in HH:MM format" := by
  refine ⟨by decide, fun tz => rfl, ?_, rfl⟩
  intro h
  injection h with h'
  exact absurd h' (by decide)

/-- C10: `"24:00"` fails the strict pattern (hour out of 0–23) but parses
as a generic time-of-day — `new Date("2000-01-01T24:00")` is midnight
rolling over to the next day — so the save succeeds and the stored time is
`"00:00"`, in any host time zone. -/
theorem time_24_rollover :
    timeRegexTest "24:00" = false ∧
    (∀ tz : Int, normalizeTime tz "24:00" = .ok "00:00") := by
  refine ⟨by decide, ?_⟩
  intro tz
  show Except.ok (formatHM (jsTimeLocalMinutes tz ⟨24, 0, 0, 0, none⟩)) = Except.ok "00:00"
  rw [show jsTimeLocalMinutes tz ⟨24, 0, 0, 0, none⟩ = 0 from rfl]
  rfl

/-- Witness for C10 in the UTC host zone. -/
theorem time_24_rollover_witness :
    timeRegexTest "24:00" = false ∧ normalizeTime 0 "24:00" = .ok "00:00" :=
  ⟨time_24_rollover.1, time_24_rollover.2 0⟩

/-- C3 (amended): an unparseable date string fails the save with the error
"Date must be in a valid format (YYYY-MM-DD or ISO string)"; a parseable
string is stored as the `YYYY-MM-DD` rendering of the UTC calendar day of
the parsed instant, e.g. `"2024-12-15T10:30:00.000Z"` is stored as
`"2024-12-15"`. -/
theorem date_normalization (tz : Int) (s : String) :
    (jsDateParse tz s.data = none →
      normalizeDate tz s = .error "Date must be in a valid format (YYYY-MM-DD or ISO string)") ∧
    (∀ ts, jsDateParse tz s.data = some ts → normalizeDate tz s = .ok (toIsoDateString ts)) ∧
    normalizeDate tz "2024-12-15T10:30:00.000Z" = .ok "2024-12-15" := by
  refine ⟨?_, ?_, ?_⟩
  · intro h
    simp [normalizeDate, h]
  · intro ts h
    simp [normalizeDate, h]
  · show Except.ok (toIsoDateString (epochMs tz 2024 12 15 10 30 0 0 (some 0))) =
      Except.ok "2024-12-15"
    rw [show epochMs tz 2024 12 15 10 30 0 0 (some 0) = 1734258600000 from rfl]
    rfl

/-- Witness for C3 at the concrete input `"2024-12-15"` (epoch
milliseconds 1734220800000). -/
theorem date_normalization_witness :
    normalizeDate 0 "2024-12-15" = .ok (toIsoDateString 1734220800000) ∧
    toIsoDateString 1734220800000 = "2024-12-15" :=
  ⟨(date_normalization 0 "2024-12-15").2.1 1734220800000 rfl, rfl⟩

/-- C3 counterexample to the claim as stated: on an unparseable input the
save does fail, but the surfaced error message is
"Date must be in a valid format (YYYY-MM-DD or ISO string)", not
"invalid date format" (the message thrown internally is caught and
replaced before it reaches the caller). -/
theorem date_error_message_cex :
    normalizeDate 0 "invalid-date" =
      .error "Date must be in a valid format (YYYY-MM-DD or ISO string)" ∧
    normalizeDate 0 "invalid-date" ≠ .error "invalid date format" ∧
    normalizeDate 0 "invalid-date" ≠ .error "Invalid date format" := by
  refine ⟨rfl, ?_, ?_⟩
  · intro h
    rw [show normalizeDate 0 "invalid-date" =
      .error "Date must be in a valid format (YYYY-MM-DD or ISO string)" from rfl] at h
    injection h with h'
    exact absurd h' (by decide)
  · intro h
    rw [show normalizeDate 0 "invalid-date" =
      .error "Date must be in a valid format (YYYY-MM-DD or ISO string)" from rfl] at h
    injection h with h'
    exact absurd h' (by decide)

example : claimedEmailAccept "a@b" = true := by decide

example : validateBookingEmail "a@b" = .error "Please provide a valid email address" := rfl

example : validateBookingEmail "TEST@example.com" = .ok "test@example.com" := rfl

example : validateBookingEmail "  user.name@example.co.uk  " = .ok "user.name@example.co.uk" := rfl

example : validateBookingEmail "user@domain" = .error "Please provide a valid email address" := rfl

example : validateBookingEmail "user @example.com" = .error "Please provide a valid email address" := rfl

example : validateBookingEmail "" = .error "Email is required" := rfl

theorem isOk_error {e : String} : (Except.error e : Except String String).isOk = false := rfl

theorem isOk_ok {v : String} : (Except.ok v : Except String String).isOk = true := rfl

theorem matchPlus_iff {p : Char → Bool} {k : List Char → Bool} {l : List Char} :
    matchPlus p k l = true ↔
      ∃ a r, l = a ++ r ∧ a ≠ [] ∧ (∀ x ∈ a, p x = true) ∧ k r = true := by
  induction l with
  | nil =>
    constructor
    · intro h
      exact Bool.noConfusion h
    · rintro ⟨a, r, heq, hne, -, -⟩
      exact absurd (List.append_eq_nil.1 heq.symm).1 hne
  | cons c rest ih =>
    rw [matchPlus]
    simp only [Bool.and_eq_true, Bool.or_eq_true]
    constructor
    · rintro ⟨hp, hk | hm⟩
      · exact ⟨[c], rest, rfl, by simp, by simpa using hp, hk⟩
      · rcases ih.1 hm with ⟨a, r, heq, hne, hall, hk⟩
        refine ⟨c :: a, r, by simp [heq], by simp, ?_, hk⟩
        intro x hx
        rcases List.mem_cons.1 hx with hx | hx
        · exact hx ▸ hp
        · exact hall x hx
    · rintro ⟨a, r, heq, hne, hall, hk⟩
      cases a with
      | nil => exact absurd rfl hne
      | cons a1 a2 =>
        rw [List.cons_append] at heq
        injection heq with h1 h2
        subst h1
        refine ⟨hall c (List.mem_cons_self _ _), ?_⟩
        cases a2 with
        | nil =>
          left
          simpa [h2] using hk
        | cons b a3 =>
          right
          refine ih.2 ⟨b :: a3, r, h2, by simp, ?_, hk⟩
          intro x hx
          exact hall x (List.mem_cons_of_mem _ hx)

theorem emailRegexTest_iff {l : List Char} :
    emailRegexTest l = true ↔
      ∃ a b c, l = a ++ '@' :: (b ++ '.' :: c) ∧ a ≠ [] ∧ b ≠ [] ∧ c ≠ [] ∧
        (∀ x ∈ a, emailCharOk x = true) ∧ (∀ x ∈ b, emailCharOk x = true) ∧
        (∀ x ∈ c, emailCharOk x = true) := by
  unfold emailRegexTest
  rw [matchPlus_iff]
  constructor
  · rintro ⟨a, r1, heq1, hne1, hall1, hk1⟩
    rcases hr1 : r1 with _ | ⟨c1, r2⟩
    · rw [hr1] at hk1
      exact absurd hk1 (by simp)
    · rw [hr1] at hk1
      have hk1a : (decide (c1.toNat = 64) &&
          matchPlus emailCharOk (fun r3 =>
            match r3 with
            | c2 :: r4 => decide (c2.toNat = 46) && matchPlus emailCharOk List.isEmpty r4
            | [] => false) r2) = true := hk1
      rw [Bool.and_eq_true, decide_eq_true_eq] at hk1a
      have hc1 : c1 = '@' := char_eq_of_toNat_eq hk1a.1
      rw [matchPlus_iff] at hk1a
      rcases hk1a.2 with ⟨b, r3, heq2, hne2, hall2, hk2⟩
      rcases hr3 : r3 with _ | ⟨c2, r4⟩
      · rw [hr3] at hk2
        exact absurd hk2 (by simp)
      · rw [hr3] at hk2
        have hk2a : (decide (c2.toNat = 46) && matchPlus emailCharOk List.isEmpty r4) = true :=
          hk2
        rw [Bool.and_eq_true, decide_eq_true_eq] at hk2a
        have hc2 : c2 = '.' := char_eq_of_toNat_eq hk2a.1
        rw [matchPlus_iff] at hk2a
        rcases hk2a.2 with ⟨c, r5, heq3, hne3, hall3, hk3⟩
        have hr5 : r5 = [] := by simpa using hk3
        refine ⟨a, b, c, ?_, hne1, hne2, hne3, hall1, hall2, hall3⟩
        rw [heq1, hr1, hc1, heq2, hr3, hc2, heq3, hr5]
        simp
  · rintro ⟨a, b, c, heq, hne1, hne2, hne3, hall1, hall2, hall3⟩
    refine ⟨a, '@' :: (b ++ '.' :: c), heq, hne1, hall1, ?_⟩
    show (decide (('@').toNat = 64) &&
        matchPlus emailCharOk (fun r3 =>
          match r3 with
          | c2 :: r4 => decide (c2.toNat = 46) && matchPlus emailCharOk List.isEmpty r4
          | [] => false) (b ++ '.' :: c)) = true
    rw [Bool.and_eq_true]
    refine ⟨by decide, ?_⟩
    rw [matchPlus_iff]
    refine ⟨b, '.' :: c, rfl, hne2, hall2, ?_⟩
    show (decide (('.').toNat = 46) && matchPlus emailCharOk List.isEmpty c) = true
    rw [Bool.and_eq_true]
    refine ⟨by decide, ?_⟩
    rw [matchPlus_iff]
    exact ⟨c, [], by simp, hne3, hall3, by simp⟩

/-- C4 (amended): after lowercasing and trimming, the email passes
validation if and only if it is at most 254 characters long and decomposes
as `local@domain1.domain2` with `local`, `domain1`, `domain2` non-empty
runs of characters that are neither whitespace nor `@` — in particular the
domain must contain a dot that is neither its first nor its last
character (so `"a@b"` is rejected, contrary to the claim's concrete
characterization).  Any failing check reports its field-specific error. -/
theorem email_validation (s : String) :
    (validateBookingEmail s).isOk = true ↔
      ((normalizeEmailInput s).length ≤ 254 ∧
        ∃ a b c, (normalizeEmailInput s).data = a ++ '@' :: (b ++ '.' :: c) ∧
          a ≠ [] ∧ b ≠ [] ∧ c ≠ [] ∧
          (∀ x ∈ a, emailCharOk x = true) ∧ (∀ x ∈ b, emailCharOk x = true) ∧
          (∀ x ∈ c, emailCharOk x = true)) := by
  unfold validateBookingEmail
  by_cases h0 : normalizeEmailInput s = ""
  · rw [if_pos h0, isOk_error]
    constructor
    · intro h
      exact Bool.noConfusion h
    · rintro ⟨-, a, b, c, heq, hne1, -⟩
      rw [h0] at heq
      cases a with
      | nil => exact absurd rfl hne1
      | cons x a2 => exact absurd heq (by simp)
  · rw [if_neg h0]
    by_cases h1 : emailRegexTest (normalizeEmailInput s).data
    · rw [if_neg (by simp [h1])]
      by_cases h2 : 254 < (normalizeEmailInput s).length
      · rw [if_pos h2, isOk_error]
        constructor
        · intro h
          exact Bool.noConfusion h
        · rintro ⟨hlen, -⟩
          omega
      · rw [if_neg h2, isOk_ok]
        constructor
        · intro _
          exact ⟨by omega, emailRegexTest_iff.1 h1⟩
        · intro _
          rfl
    · rw [if_pos (by simp [h1]), isOk_error]
      constructor
      · intro h
        exact Bool.noConfusion h
      · rintro ⟨-, hdec⟩
        exact absurd (emailRegexTest_iff.2 hdec) h1

/-- Witness for C4 at the accepted input `"TEST@example.com"` and the
rejected input `"user@domain"`. -/
theorem email_validation_witness :
    (validateBookingEmail "TEST@example.com").isOk = true ∧
    (validateBookingEmail "user@domain").isOk = false := by
  constructor
  · refine (email_validation "TEST@example.com").mpr ⟨by decide, "test".data, "example".data,
      "com".data, by decide, by decide, by decide, by decide, by decide, by decide, by decide⟩
  · decide

/-- C4 counterexample to the claim as stated: `"a@b"` is non-empty, short,
whitespace-free, has exactly one `@` with non-empty segments on both
sides — the claim's characterization accepts it — yet the code's
`emailRegex` rejects it because the domain part contains no dot. -/
theorem email_claim_cex :
    claimedEmailAccept "a@b" = true ∧
    validateBookingEmail "a@b" = .error "Please provide a valid email address" ∧
    (validateBookingEmail "a@b").isOk = false := by
  refine ⟨by decide, rfl, by decide⟩

example :
    eventPreSave 0 ⟨"Tech Conference 2024", "", "2024-12-15", "09:00", ["Keynote"], ["tech"]⟩
      ⟨true, false, false, false⟩ =
    .ok ⟨"Tech Conference 2024", "tech-conference-2024", "2024-12-15", "09:00",
      ["Keynote"], ["tech"]⟩ := rfl

example :
    eventPreSave 0 ⟨"T", "", "2024-12-15", "09:00", [], ["tech"]⟩ ⟨true, false, false, false⟩ =
    .error "Agenda cannot be empty" := rfl

theorem eventDateStep_slug {tz : Int} {f : SaveFlags} {d d2 : EventDoc}
    (h : eventDateStep tz f d = .ok d2) : d2.slug = d.slug ∧ d2.time = d.time ∧
      d2.agenda = d.agenda ∧ d2.tags = d.tags := by
  unfold eventDateStep at h
  split at h
  · split at h
    · exact absurd h (by simp)
    · rw [← Except.ok.inj h]
      exact ⟨rfl, rfl, rfl, rfl⟩
  · rw [← Except.ok.inj h]
    exact ⟨rfl, rfl, rfl, rfl⟩

theorem eventTimeStep_slug {tz : Int} {f : SaveFlags} {d d2 : EventDoc}
    (h : eventTimeStep tz f d = .ok d2) : d2.slug = d.slug ∧ d2.date = d.date ∧
      d2.agenda = d.agenda ∧ d2.tags = d.tags := by
  unfold eventTimeStep at h
  split at h
  · split at h
    · exact absurd h (by simp)
    · rw [← Except.ok.inj h]
      exact ⟨rfl, rfl, rfl, rfl⟩
  · rw [← Except.ok.inj h]
    exact ⟨rfl, rfl, rfl, rfl⟩

theorem eventGuards_ok {d d2 : EventDoc} (h : eventGuards d = .ok d2) : d2 = d := by
  unfold eventGuards at h
  split at h
  · exact absurd h (by simp)
  · split at h
    · exact absurd h (by simp)
    · exact (Except.ok.inj h).symm

theorem eventPreSave_ok_slug {tz : Int} {d d2 : EventDoc} {f : SaveFlags}
    (h : eventPreSave tz d f = .ok d2) : d2.slug = (eventSlugStep f d).slug := by
  unfold eventPreSave at h
  rcases hd : eventDateStep tz f (eventSlugStep f d) with e | d1
  · rw [hd] at h
    exact Except.noConfusion (show (Except.error e : Except String EventDoc) = .ok d2 from h)
  · rw [hd] at h
    have h1 : (eventTimeStep tz f d1).bind eventGuards = Except.ok d2 := h
    rcases ht : eventTimeStep tz f d1 with e | dt
    · rw [ht] at h1
      exact Except.noConfusion (show (Except.error e : Except String EventDoc) = .ok d2 from h1)
    · rw [ht] at h1
      have hg : eventGuards dt = .ok d2 := h1
      rw [eventGuards_ok hg]
      rw [(eventTimeStep_slug ht).1, (eventDateStep_slug hd).1]

/-- C7: re-saving without modifying the title leaves the slug unchanged;
modifying the title (or a fresh document) regenerates the slug
deterministically from the new title; and a save with no field changes at
all (and non-empty agenda and tags) returns the document unchanged —
slug, date and time are all untouched because every normalization step is
skipped. -/
theorem event_presave_fields (tz : Int) (d : EventDoc) (f : SaveFlags) :
    (f.isNew = false → f.titleModified = false →
      ∀ d2, eventPreSave tz d f = .ok d2 → d2.slug = d.slug) ∧
    ((f.isNew || f.titleModified) = true →
      ∀ d2, eventPreSave tz d f = .ok d2 → d2.slug = slugify d.title) ∧
    (f.isNew = false → f.titleModified = false → f.dateModified = false →
      f.timeModified = false → d.agenda ≠ [] → d.tags ≠ [] →
      eventPreSave tz d f = .ok d) := by
  refine ⟨?_, ?_, ?_⟩
  · intro hn ht d2 h
    rw [eventPreSave_ok_slug h]
    unfold eventSlugStep
    rw [hn, ht, if_neg (by simp)]
  · intro hmod d2 h
    rw [eventPreSave_ok_slug h]
    unfold eventSlugStep
    rw [if_pos hmod]
  · intro hn ht hd htime hag htg
    have h1 : eventSlugStep f d = d := by
      unfold eventSlugStep
      rw [hn, ht, if_neg (by simp)]
    have h2 : eventDateStep tz f d = .ok d := by
      unfold eventDateStep
      rw [hn, hd, if_neg (by simp)]
    have h3 : eventTimeStep tz f d = .ok d := by
      unfold eventTimeStep
      rw [hn, htime, if_neg (by simp)]
    have h4 : eventGuards d = .ok d := by
      unfold eventGuards
      rw [if_neg (by simpa using hag), if_neg (by simpa using htg)]
    unfold eventPreSave
    rw [h1, h2]
    show (eventTimeStep tz f d).bind eventGuards = .ok d
    rw [h3]
    show eventGuards d = .ok d
    exact h4

/-- Witness for C7: a fresh save derives the slug from the title; an
unchanged re-save of the resulting document returns it untouched. -/
theorem event_presave_fields_witness :
    eventPreSave 0 ⟨"My Event", "my-event", "2024-12-15", "09:00", ["a"], ["t"]⟩
      ⟨false, false, false, false⟩ =
      .ok ⟨"My Event", "my-event", "2024-12-15", "09:00", ["a"], ["t"]⟩ :=
  (event_presave_fields 0 ⟨"My Event", "my-event", "2024-12-15", "09:00", ["a"], ["t"]⟩
    ⟨false, false, false, false⟩).2.2 rfl rfl rfl rfl (by simp) (by simp)

/-- C5: a save with unchanged `eventId` performs no lookup and passes; a
save with new/changed `eventId` performs exactly one lookup, passing when
the Event is found, failing with an error that names the missing identity
when it is absent, and failing with a wrapped reference-validation error —
preserving the underlying message exactly when the thrown value is a
structured `Error` — when the lookup itself throws. -/
theorem booking_ref_check (eventId msg : String) (lk : LookupOutcome) :
    bookingValidateRef false eventId lk = none ∧
    bookingRefLookupCount false = 0 ∧
    bookingRefLookupCount true = 1 ∧
    bookingValidateRef true eventId .found = none ∧
    bookingValidateRef true eventId .absent =
      some ("Event with ID " ++ eventId ++ " does not exist") ∧
    bookingValidateRef true eventId (.threw true msg) =
      some ("Failed to validate event reference: " ++ msg) ∧
    bookingValidateRef true eventId (.threw false msg) =
      some "Failed to validate event reference" :=
  ⟨rfl, rfl, rfl, rfl, rfl, rfl, rfl⟩

/-- Witness for C5 at a concrete identity and error message. -/
theorem booking_ref_check_witness :
    bookingValidateRef true "507f1f77bcf86cd799439011" .absent =
      some "Event with ID 507f1f77bcf86cd799439011 does not exist" ∧
    bookingValidateRef false "507f1f77bcf86cd799439011" (.threw true "boom") = none :=
  ⟨(booking_ref_check "507f1f77bcf86cd799439011" "boom" .found).2.2.2.2.1,
    (booking_ref_check "507f1f77bcf86cd799439011" "boom" (.threw true "boom")).1⟩

theorem connStep_inv {s s2 : ConnState}
    (hinv : (s.cache.promise = none → s.inFlight = 0) ∧ s.inFlight ≤ 1)
    (hstep : ConnStep s s2) :
    (s2.cache.promise = none → s2.inFlight = 0) ∧ s2.inFlight ≤ 1 := by
  cases hstep with
  | call_hit h hc => exact hinv
  | call_join p hc hp => exact hinv
  | call_start hc hp =>
    constructor
    · intro h2
      exact Option.noConfusion (show (some s.nextId : Option Nat) = none from h2)
    · show s.inFlight + 1 ≤ 1
      have := hinv.1 hp
      omega
  | attempt_success p h hp hf =>
    constructor
    · intro h2
      have h3 : s.cache.promise = none := h2
      rw [hp] at h3
      exact Option.noConfusion h3
    · show s.inFlight - 1 ≤ 1
      have := hinv.2
      omega
  | attempt_failure p hp hf =>
    constructor
    · intro h2
      show s.inFlight - 1 = 0
      have := hinv.2
      omega
    · show s.inFlight - 1 ≤ 1
      have := hinv.2
      omega

theorem connReachable_inv {s : ConnState} (h : ConnReachable s) :
    (s.cache.promise = none → s.inFlight = 0) ∧ s.inFlight ≤ 1 := by
  induction h with
  | refl => exact ⟨fun _ => rfl, by decide⟩
  | tail hr hstep ih => exact connStep_inv ih hstep

/-- C6: when `conn` is present a call returns it with no new attempt; when
`conn` is absent and `promise` present a call awaits that same promise;
a failed attempt resets `promise` and `conn` to null, after which the next
call starts a fresh attempt; and in every state reachable from
initialization at most one connection attempt is in flight. -/
theorem conn_cache_single_flight :
    (∀ (s : ConnState) (h : Nat), s.cache.conn = some h →
      connectAction s.cache = .returnExisting h) ∧
    (∀ (s : ConnState) (p : Nat), s.cache.conn = none → s.cache.promise = some p →
      connectAction s.cache = .awaitExisting p) ∧
    (∀ (s : ConnState) (p : Nat), s.cache.promise = some p → 0 < s.inFlight →
      ConnStep s ⟨⟨none, none⟩, s.inFlight - 1, s.nextId⟩ ∧
      connectAction ⟨none, none⟩ = .startNew) ∧
    (∀ s : ConnState, ConnReachable s → s.inFlight ≤ 1) := by
  refine ⟨?_, ?_, ?_, ?_⟩
  · intro s h hc
    unfold connectAction
    rw [hc]
  · intro s p hc hp
    unfold connectAction
    rw [hc, hp]
  · intro s p hp hf
    exact ⟨ConnStep.attempt_failure s p hp hf, rfl⟩
  · intro s h
    exact (connReachable_inv h).2

/-- Witness for C6: concrete cache states and a concrete reachable state
(one started and one failed attempt after initialization). -/
theorem conn_cache_single_flight_witness :
    connectAction ⟨some 5, none⟩ = .returnExisting 5 ∧
    connectAction ⟨none, some 3⟩ = .awaitExisting 3 ∧
    (⟨⟨none, some 0⟩, 1, 1⟩ : ConnState).inFlight ≤ 1 := by
  refine ⟨?_, ?_, ?_⟩
  · exact conn_cache_single_flight.1 ⟨⟨some 5, none⟩, 0, 0⟩ 5 rfl
  · exact conn_cache_single_flight.2.1 ⟨⟨none, some 3⟩, 0, 0⟩ 3 rfl rfl
  · exact conn_cache_single_flight.2.2.2 ⟨⟨none, some 0⟩, 1, 1⟩
      (Relation.ReflTransGen.single (ConnStep.call_start connInit rfl rfl))

/-- C8 (amended): an absent `MONGODB_URL` — and likewise one set to the
empty string, which the code's `if (!MONGODB_URL)` falsiness test treats
the same way — is a fatal initialization error with the exact message,
before any storage operation and with no connection attempt made or
pending; a present non-empty value initializes successfully with an empty
cache and nothing in flight. -/
theorem mongodb_url_required :
    mongooseModuleInit none =
      .error "Please define the MONGODB_URL environment variable inside .env" ∧
    mongooseModuleInit (some "") =
      .error "Please define the MONGODB_URL environment variable inside .env" ∧
    (∀ url, url ≠ "" → mongooseModuleInit (some url) = .ok (url, connInit)) ∧
    connInit.cache.conn = none ∧ connInit.cache.promise = none ∧ connInit.inFlight = 0 := by
  refine ⟨rfl, rfl, ?_, rfl, rfl, rfl⟩
  intro url h
  show (if url = "" then
      Except.error "Please define the MONGODB_URL environment variable inside .env"
    else Except.ok (url, connInit)) = Except.ok (url, connInit)
  rw [if_neg h]

/-- Witness for C8 at a concrete connection string. -/
theorem mongodb_url_required_witness :
    mongooseModuleInit (some "mongodb://localhost:27017/test-db") =
      .ok ("mongodb://localhost:27017/test-db", connInit) :=
  mongodb_url_required.2.2.1 "mongodb://localhost:27017/test-db" (by decide)

/-- C8 counterexample to the claim as stated: `MONGODB_URL` set to the
empty string is a present configuration value, yet initialization throws —
the falsiness test `if (!MONGODB_URL)` does not distinguish an unset
variable from an empty one, so "if it is present, initialization does not
throw" fails at this input. -/
theorem mongodb_url_empty_cex :
    mongooseModuleInit (some "") =
      .error "Please define the MONGODB_URL environment variable inside .env" ∧
    (mongooseModuleInit (some "")).isOk = false :=
  ⟨rfl, rfl⟩

end EventApp
